import Mathlib

/-!
Shallow embedding of the caller-attribution and verbosity-filtering core of
the `github.com/luxfi/log` package (files `caller.go` and the GlogHandler
file), together with theorems checking the specification's claims.

Strings are modelled by Lean `String`s; the byte-oriented Go string
primitives (`strings.Contains`, `strings.HasPrefix`, `strings.Split`,
`strings.SplitN`, `strconv.Atoi`, `filepath.Base`) are embedded as
executable functions over the character list of the string.  Levels
(`slog.Level`, an integer type in Go) are modelled as `Int`.
-/

namespace LuxLog

/-! ### Go string primitives -/

/-- Model of `strings.HasPrefix(s, pre)` on character lists:
`listStartsWith s pre` is true iff `pre` is an initial segment of `s`. -/
def listStartsWith : List Char → List Char → Bool
  | _, [] => true
  | [], _ :: _ => false
  | c :: cs, p :: ps => c = p && listStartsWith cs ps

/-- Model of `strings.Contains(hay, pat)`: `pat` occurs as a contiguous
substring of `hay`. -/
def listContainsSub (pat : List Char) : List Char → Bool
  | [] => listStartsWith [] pat
  | c :: t => listStartsWith (c :: t) pat || listContainsSub pat t

/-- `strings.HasPrefix` on `String`s. -/
def strStartsWith (s pre : String) : Bool :=
  listStartsWith s.toList pre.toList

/-- `strings.Contains` on `String`s. -/
def containsSubstr (hay pat : String) : Bool :=
  listContainsSub pat.toList hay.toList

/-! ### Frames and the internal-package registry (`caller.go`) -/

/-- A stack frame as produced by `runtime.CallersFrames`: the qualified
function name, the on-disk file path, the line and the program counter. -/
structure Frame where
  function : String
  file : String
  line : Nat
  pc : Nat
  deriving DecidableEq, Repr

/-- The initial contents of `internalPkgList` installed by `init()` in
`caller.go`. -/
def initPkgs : List String :=
  ["github.com/luxfi/log", "go.uber.org/zap", "go.uber.org/zap/zapcore"]

/-- `RegisterInternalPackages(pkgs...)` from `caller.go`: appends the new
packages to the current snapshot `cur` and publishes the result; an empty
argument list leaves the snapshot untouched. -/
def RegisterInternalPackages (cur : List String) (pkgs : List String) : List String :=
  if pkgs.isEmpty then cur else cur ++ pkgs

/-- The suffix of a string after its last `/`: `p[idx+1:]` for
`idx = strings.LastIndex(p, "/")`. -/
def afterLastSlash (p : String) : String :=
  String.mk (p.toList.reverse.takeWhile (fun c => c ≠ '/')).reverse

/-- The per-package body of the loop in `isInternalFrame` that consults the
module name after the last `/` of a registered package path (the
`strings.LastIndex(p, "/")` block). -/
def moduleNameCheck (p : String) (f : Frame) : Bool :=
  if p.toList.contains '/' then
    let m := afterLastSlash p
    containsSubstr f.file ("/" ++ m ++ "@") || containsSubstr f.file (m ++ "@") ||
      strStartsWith f.file (m ++ "/")
  else false

/-- The per-package checks of the loop in `isInternalFrame`: function-name
match, versioned/unversioned on-disk path match, and the module-name
fallbacks. -/
def pkgCheck (p : String) (f : Frame) : Bool :=
  strStartsWith f.function p ||
  containsSubstr f.file ("/" ++ p ++ "@") || containsSubstr f.file ("/" ++ p ++ "/") ||
  moduleNameCheck p f

/-- `isInternalFrame` from `caller.go`: classifies a frame as belonging to
the logging library / registered wrapper packages. -/
def isInternalFrame (pkgs : List String) (f : Frame) : Bool :=
  if containsSubstr f.file "log@v" then true
  else if pkgs.any (fun p => pkgCheck p f) then true
  else if containsSubstr f.file "github.com/luxfi/log" then true
  else if strStartsWith f.file "log/" then true
  else false

/-! ### The caller resolver (`firstExternalCaller` and `callerCore.Write`) -/

/-- The inline runtime-frame check at the top of the loop of
`firstExternalCaller`: `strings.Contains(f.File, "/runtime/") ||
strings.Contains(f.Function, "runtime.")`. -/
def isRuntimeFrame (f : Frame) : Bool :=
  containsSubstr f.file "/runtime/" || containsSubstr f.function "runtime."

/-- The frame-walking loop of `firstExternalCaller`, applied to the captured
frames in stack order (innermost first).  Runtime frames are skipped;
internal frames are skipped; a non-internal frame is returned unless its
file contains `/testing/` (skipped) — a `_test.go` file without `/testing/`
is returned. -/
def scanFrames (pkgs : List String) : List Frame → Option Frame
  | [] => none
  | f :: rest =>
    if isRuntimeFrame f then scanFrames pkgs rest
    else if !isInternalFrame pkgs f then
      if !containsSubstr f.file "/testing/" && !containsSubstr f.file "_test.go" then
        some f
      else if containsSubstr f.file "/testing/" then scanFrames pkgs rest
      else some f
    else scanFrames pkgs rest

/-- `firstExternalCaller` from `caller.go` over the abstract call stack
`stack` (the frames above the resolver itself, innermost first, i.e. after
the `skip = 2` of `runtime.Callers`).  At most `maxDepth = 64` entries are
captured; `n = 0` yields no caller. -/
def firstExternalCaller (pkgs : List String) (stack : List Frame) : Option Frame :=
  let captured := stack.take 64
  if captured.isEmpty then none
  else scanFrames pkgs captured

/-- A zap entry, reduced to the fields the core touches: `Entry.Caller`
(`none` models `EntryCaller{Defined: false}`). -/
structure Entry where
  level : Int
  message : String
  caller : Option Frame
  deriving DecidableEq, Repr

/-- `callerCore.Write`: replaces `Entry.Caller` with the first external
caller when one is found, leaves it untouched otherwise, and in either case
forwards the record to the wrapped core (the `Bool` component, always
`true`, models that `c.Core.Write` is invoked). -/
def callerCoreWrite (pkgs : List String) (stack : List Frame) (ent : Entry) :
    Entry × Bool :=
  match firstExternalCaller pkgs stack with
  | some ec => ({ ent with caller := some ec }, true)
  | none => (ent, true)

/-! ### The verbosity filter (`GlogHandler`) -/

/-- `slog.LevelInfo = 0`; `LevelInfo` in `logger.go` is an alias for it. -/
def LevelInfo : Int := 0

/-- The `GlogHandler` state: the wrapped `slog.Handler` is the out-of-scope
record sink and is dropped; the three filtering fields are kept. -/
structure GlogHandler where
  minSeverity : Int
  vdefault : Int
  vmodules : List (String × Int)
  deriving DecidableEq, Repr

/-- Go map read `m[k]`: the most recently inserted binding for `k`. -/
def lookupVmod (m : List (String × Int)) (k : String) : Option Int :=
  match m with
  | [] => none
  | (k₀, v₀) :: rest => if k₀ = k then some v₀ else lookupVmod rest k

/-- Go map write `m[k] = v`, with most-recent-first lookup semantics. -/
def insertVmod (m : List (String × Int)) (k : String) (v : Int) : List (String × Int) :=
  (k, v) :: m

/-- `NewGlogHandler`: severity `LevelInfo`, default verbosity `LevelInfo`,
empty override table. -/
def NewGlogHandler : GlogHandler :=
  { minSeverity := LevelInfo, vdefault := LevelInfo, vmodules := [] }

/-- `GlogHandler.Verbosity(v)`: sets both thresholds together. -/
def GlogHandler.Verbosity (g : GlogHandler) (v : Int) : GlogHandler :=
  { g with minSeverity := v, vdefault := v }

/-- `GlogHandler.Enabled(ctx, level)`: the cheap phase-1 pre-check. -/
def GlogHandler.Enabled (g : GlogHandler) (level : Int) : Bool :=
  decide (g.minSeverity ≤ level) || decide (level < LevelInfo)

/-- A `slog.Record`, reduced to the fields `Handle` touches: the level and
the program counter of the call site (`0` when absent). -/
structure SRecord where
  level : Int
  pc : Nat
  deriving DecidableEq, Repr

/-- `filepath.Base` (Unix rules): `""` gives `"."`; trailing slashes are
stripped; an all-slash path gives `"/"`; otherwise the last path element. -/
def baseName (path : String) : String :=
  if path = "" then "."
  else
    let cs := (path.toList.reverse.dropWhile (fun c => c = '/')).reverse
    if cs.isEmpty then "/"
    else String.mk (cs.reverse.takeWhile (fun c => c ≠ '/')).reverse

/-- `GlogHandler.Handle(ctx, r)`: the precise phase-2 decision.  `pcFile`
models `runtime.CallersFrames([]uintptr{pc}).Next().File` — the resolution
of a program counter to a source file.  The result is `true` iff the record
is forwarded to the wrapped handler. -/
def GlogHandler.Handle (pcFile : Nat → String) (g : GlogHandler) (r : SRecord) : Bool :=
  if g.minSeverity ≤ r.level then true
  else if r.level < LevelInfo then
    let vthr :=
      if r.pc ≠ 0 then
        let file := pcFile r.pc
        if file ≠ "" then
          match lookupVmod g.vmodules (baseName file) with
          | some m => m
          | none => g.vdefault
        else g.vdefault
      else g.vdefault
    decide (r.level ≤ vthr)
  else false

/-! ### `GlogHandler.Vmodule`: parsing the vmodule specification string -/

/-- `strings.Split(s, sep)` for a single-character separator, on character
lists: splits at every occurrence of `sep`; the empty string yields one
empty field, as in Go. -/
def splitOnChar (sep : Char) : List Char → List (List Char)
  | [] => [[]]
  | c :: t =>
    let r := splitOnChar sep t
    if c = sep then [] :: r
    else
      match r with
      | h :: rest => (c :: h) :: rest
      | [] => [[c]]

/-- `strings.Split(s, sep)` on `String`s (single-character separator). -/
def goSplit (s : String) (sep : Char) : List String :=
  (splitOnChar sep s.toList).map String.mk

/-- `strings.SplitN(entry, "=", 2)`, packaged as: `none` when `entry`
contains no `=` (so `len(parts) != 2`), otherwise the text before the first
`=` and everything after it. -/
def splitEq : List Char → Option (List Char × List Char)
  | [] => none
  | c :: rest =>
    if c = '=' then some ([], rest)
    else match splitEq rest with
      | some (a, b) => some (c :: a, b)
      | none => none

/-- Digit run of `strconv.Atoi`: every character must be a decimal digit
and there must be at least one. -/
def parseDigits (cs : List Char) : Option Nat :=
  if cs.isEmpty then none
  else if cs.all (fun c => c.isDigit) then
    some (cs.foldl (fun n c => 10 * n + (c.toNat - 48)) 0)
  else none

/-- `strconv.Atoi(s)`: optional sign, a non-empty digit run, and the value
must fit in a 64-bit `int` (Go returns `ErrRange` on overflow). -/
def atoi (s : String) : Option Int :=
  match s.toList with
  | [] => none
  | c :: rest =>
    if c = '+' then
      (parseDigits rest).bind (fun n => if n ≤ 2 ^ 63 - 1 then some (n : Int) else none)
    else if c = '-' then
      (parseDigits rest).bind (fun n => if n ≤ 2 ^ 63 then some (-(n : Int)) else none)
    else
      (parseDigits (c :: rest)).bind (fun n => if n ≤ 2 ^ 63 - 1 then some (n : Int) else none)

/-- One comma-separated entry of a vmodule spec: `some (pattern, level)`
when the entry is well-formed (`pattern=level` with an integer level),
`none` when it is malformed and `Vmodule` skips it. -/
def parseVmodEntry (entry : String) : Option (String × Int) :=
  match splitEq entry.toList with
  | none => none
  | some (a, b) =>
    match atoi (String.mk b) with
    | none => none
    | some lvl => some (String.mk a, lvl)

/-- `GlogHandler.Vmodule(spec)`: installs every well-formed
`pattern=level` entry of the comma-separated spec, skips the rest, and
always returns a `nil` error (the `Option String` component). -/
def GlogHandler.Vmodule (g : GlogHandler) (spec : String) : GlogHandler × Option String :=
  (⟨g.minSeverity, g.vdefault,
    (goSplit spec ',').foldl
      (fun m entry =>
        match parseVmodEntry entry with
        | some (p, lvl) => insertVmod m p lvl
        | none => m)
      g.vmodules⟩,
   none)

/-- The well-formed entries of a vmodule spec, in order. -/
def parsedEntries (spec : String) : List (String × Int) :=
  (goSplit spec ',').filterMap parseVmodEntry

/-! ### Helper lemmas about the string primitives -/

theorem toList_append (a b : String) : (a ++ b).toList = a.toList ++ b.toList := by
  simp [String.toList, String.data_append]

theorem listStartsWith_any_nil (a : List Char) : listStartsWith a [] = true := by
  cases a <;> rfl

theorem listStartsWith_refl_append (p r : List Char) :
    listStartsWith (p ++ r) p = true := by
  induction p with
  | nil => exact listStartsWith_any_nil r
  | cons c cs ih => simpa [listStartsWith] using ih

theorem listStartsWith_nil (b : List Char) (h : listStartsWith [] b = true) :
    b = [] := by
  cases b with
  | nil => rfl
  | cons c cs => simp [listStartsWith] at h

theorem listStartsWith_trans {a b c : List Char}
    (h₁ : listStartsWith a b = true) (h₂ : listStartsWith b c = true) :
    listStartsWith a c = true := by
  induction a generalizing b c with
  | nil =>
    have hb := listStartsWith_nil b h₁
    subst hb
    have hc := listStartsWith_nil c h₂
    subst hc
    rfl
  | cons x a ih =>
    cases b with
    | nil =>
      have hc := listStartsWith_nil c h₂
      subst hc
      rfl
    | cons y b =>
      cases c with
      | nil => rfl
      | cons z c =>
        simp only [listStartsWith, Bool.and_eq_true, decide_eq_true_eq] at h₁ h₂ ⊢
        exact ⟨h₁.1.trans h₂.1, ih h₁.2 h₂.2⟩

theorem listContainsSub_mono {pat pat' hay : List Char}
    (hpre : listStartsWith pat pat' = true)
    (h : listContainsSub pat hay = true) : listContainsSub pat' hay = true := by
  induction hay with
  | nil =>
    have hp := listStartsWith_nil pat h
    subst hp
    have hp' := listStartsWith_nil pat' hpre
    subst hp'
    rfl
  | cons c t ih =>
    simp only [listContainsSub, Bool.or_eq_true] at h ⊢
    rcases h with h | h
    · exact Or.inl (listStartsWith_trans h hpre)
    · exact Or.inr (ih h)

theorem containsSubstr_mono {hay pat pat' : String}
    (hpre : listStartsWith pat.toList pat'.toList = true)
    (h : containsSubstr hay pat = true) : containsSubstr hay pat' = true :=
  listContainsSub_mono hpre h

theorem isInternalFrame_any_congr {pkgs₁ pkgs₂ : List String} (f : Frame)
    (h : pkgs₁.any (fun p => pkgCheck p f) = pkgs₂.any (fun p => pkgCheck p f)) :
    isInternalFrame pkgs₁ f = isInternalFrame pkgs₂ f := by
  unfold isInternalFrame
  rw [h]

/-! ### Claim theorems about the frame classifier and the registry -/

/-- C2: a frame whose file path contains a registered package `p` as a path
segment — either unversioned `/p/` or versioned `/p@version/`, with the
version marker suffixed to the final segment of `p` before the path
separator — is classified internal. -/
theorem internal_of_registered_path_segment (pkgs : List String) (p : String) (f : Frame)
    (hp : p ∈ pkgs)
    (h : containsSubstr f.file ("/" ++ p ++ "/") = true ∨
         ∃ v, containsSubstr f.file ("/" ++ p ++ "@" ++ v ++ "/") = true) :
    isInternalFrame pkgs f = true := by
  have hpk : pkgCheck p f = true := by
    rcases h with h | ⟨v, h⟩
    · unfold pkgCheck
      simp [h]
    · have hs : containsSubstr f.file ("/" ++ p ++ "@") = true := by
        apply containsSubstr_mono _ h
        have he : ("/" ++ p ++ "@" ++ v ++ "/").toList
            = ("/" ++ p ++ "@").toList ++ (v.toList ++ "/".toList) := by
          simp [toList_append]
        rw [he]
        exact listStartsWith_refl_append _ _
      unfold pkgCheck
      simp [hs]
  have hany : pkgs.any (fun q => pkgCheck q f) = true :=
    List.any_eq_true.2 ⟨p, hp, hpk⟩
  unfold isInternalFrame
  simp [hany]

/-- C2 witness: the initial registry and a zap frame laid out in the
module cache in versioned form. -/
theorem internal_of_registered_path_segment_witness :
    isInternalFrame initPkgs
      ⟨"go.uber.org/zap.(*Logger).Info",
       "/home/u/go/pkg/mod/go.uber.org/zap@v1.27.0/logger.go", 100, 7⟩ = true :=
  internal_of_registered_path_segment initPkgs "go.uber.org/zap"
    ⟨"go.uber.org/zap.(*Logger).Info",
     "/home/u/go/pkg/mod/go.uber.org/zap@v1.27.0/logger.go", 100, 7⟩
    (by decide)
    (Or.inr ⟨"v1.27.0", by decide⟩)

/-- C8: registering the same package twice produces the same classifier
outcome on every frame as registering it once, and registering an empty
sequence leaves the snapshot unchanged. -/
theorem register_duplicate_noop (cur : List String) (p : String) (f : Frame) :
    isInternalFrame (RegisterInternalPackages (RegisterInternalPackages cur [p]) [p]) f
      = isInternalFrame (RegisterInternalPackages cur [p]) f
    ∧ RegisterInternalPackages cur [] = cur := by
  constructor
  · apply isInternalFrame_any_congr
    simp [RegisterInternalPackages, List.any_append, Bool.or_assoc]
  · rfl

/-- C10: the classifier hard-codes checks that do not depend on the
registered prefix set: any file containing the raw substring `log@v`
anywhere, or containing `github.com/luxfi/log`, or starting with `log/`,
is internal against every registry snapshot. -/
theorem internal_hardcoded_checks (pkgs : List String) (f : Frame)
    (h : containsSubstr f.file "log@v" = true ∨
         containsSubstr f.file "github.com/luxfi/log" = true ∨
         strStartsWith f.file "log/" = true) :
    isInternalFrame pkgs f = true := by
  unfold isInternalFrame
  rcases h with h | h | h <;> simp [h]

/-- C10 witness: a frame from an unrelated module named `catalog` — whose
versioned cache directory `catalog@v1.2.3` contains `log@v` as a raw
substring — is classified internal even against an empty registry. -/
theorem internal_hardcoded_checks_witness :
    isInternalFrame []
      ⟨"example.com/catalog.Query",
       "/go/pkg/mod/example.com/catalog@v1.2.3/db.go", 42, 9⟩ = true :=
  internal_hardcoded_checks []
    ⟨"example.com/catalog.Query",
     "/go/pkg/mod/example.com/catalog@v1.2.3/db.go", 42, 9⟩
    (Or.inl (by decide))

/-! ### The resolver's skipping discipline -/

/-- A frame the loop of `firstExternalCaller` walks past without returning
it: a runtime frame, an internal frame, or a testing-framework frame. -/
def skippable (pkgs : List String) (g : Frame) : Prop :=
  isRuntimeFrame g = true ∨ isInternalFrame pkgs g = true ∨
    containsSubstr g.file "/testing/" = true

instance (pkgs : List String) (g : Frame) : Decidable (skippable pkgs g) := by
  unfold skippable
  infer_instance

theorem scanFrames_eq_some {pkgs : List String} {l : List Frame} {f : Frame}
    (h : scanFrames pkgs l = some f) :
    isRuntimeFrame f = false ∧ isInternalFrame pkgs f = false ∧
    containsSubstr f.file "/testing/" = false ∧
    ∃ pre post, l = pre ++ f :: post ∧ ∀ g ∈ pre, skippable pkgs g := by
  induction l with
  | nil => simp [scanFrames] at h
  | cons a t ih =>
    rw [scanFrames] at h
    by_cases hr : isRuntimeFrame a = true
    · rw [if_pos hr] at h
      obtain ⟨h1, h2, h3, pre, post, heq, hpre⟩ := ih h
      refine ⟨h1, h2, h3, a :: pre, post, by rw [heq, List.cons_append], ?_⟩
      intro g hg
      rcases List.mem_cons.1 hg with hg | hg
      · subst hg
        exact Or.inl hr
      · exact hpre g hg
    · rw [if_neg hr] at h
      by_cases hi : isInternalFrame pkgs a = true
      · rw [hi] at h
        simp only [Bool.not_true, Bool.false_eq_true, if_false] at h
        obtain ⟨h1, h2, h3, pre, post, heq, hpre⟩ := ih h
        refine ⟨h1, h2, h3, a :: pre, post, by rw [heq, List.cons_append], ?_⟩
        intro g hg
        rcases List.mem_cons.1 hg with hg | hg
        · subst hg
          exact Or.inr (Or.inl hi)
        · exact hpre g hg
      · rw [Bool.not_eq_true] at hi
        rw [hi] at h
        simp only [Bool.not_false, if_true] at h
        by_cases ht : containsSubstr a.file "/testing/" = true
        · rw [ht] at h
          simp only [Bool.not_true, Bool.false_and, Bool.false_eq_true, if_false, if_true] at h
          obtain ⟨h1, h2, h3, pre, post, heq, hpre⟩ := ih h
          refine ⟨h1, h2, h3, a :: pre, post, by rw [heq, List.cons_append], ?_⟩
          intro g hg
          rcases List.mem_cons.1 hg with hg | hg
          · subst hg
            exact Or.inr (Or.inr ht)
          · exact hpre g hg
        · rw [Bool.not_eq_true] at ht
          rw [ht] at h
          have hsome : some a = some f := by
            by_cases hg : containsSubstr a.file "_test.go" = true
            · rw [hg] at h
              simpa using h
            · rw [Bool.not_eq_true] at hg
              rw [hg] at h
              simpa using h
          have hf : a = f := Option.some.inj hsome
          subst hf
          rw [Bool.not_eq_true] at hr
          exact ⟨hr, hi, ht, [], t, rfl, by intro g hg; cases hg⟩

theorem scanFrames_eq_none {pkgs : List String} {l : List Frame}
    (h : ∀ g ∈ l, skippable pkgs g) :
    scanFrames pkgs l = none := by
  induction l with
  | nil => rfl
  | cons a t ih =>
    have ht : ∀ g ∈ t, skippable pkgs g := fun g hg => h g (List.mem_cons_of_mem a hg)
    have hrec := ih ht
    rw [scanFrames]
    rcases h a (List.mem_cons_self a t) with h1 | h2 | h3
    · rw [if_pos h1]
      exact hrec
    · by_cases hr : isRuntimeFrame a = true
      · rw [if_pos hr]
        exact hrec
      · rw [if_neg hr, h2]
        simpa using hrec
    · by_cases hr : isRuntimeFrame a = true
      · rw [if_pos hr]
        exact hrec
      · rw [if_neg hr]
        by_cases hi : isInternalFrame pkgs a = true
        · rw [hi]
          simpa using hrec
        · rw [Bool.not_eq_true] at hi
          rw [hi, h3]
          simpa using hrec

theorem firstExternalCaller_take (pkgs : List String) (stack : List Frame) :
    firstExternalCaller pkgs (stack.take 64) = firstExternalCaller pkgs stack := by
  unfold firstExternalCaller
  rw [List.take_take]
  norm_num

/-! ### Claim theorems about the caller resolver -/

/-- Concrete frames used in the resolver counterexamples and witnesses. -/
def testingFrame : Frame :=
  ⟨"testing.tRunner", "/usr/local/go/src/testing/testing.go", 1595, 11⟩

def appFrame : Frame := ⟨"main.main", "/home/u/app/main.go", 10, 12⟩

def wrapperFrame : Frame :=
  ⟨"github.com/luxfi/log.(*logger).Info",
   "/home/u/go/pkg/mod/github.com/luxfi/log@v1.0.6/log.go", 33, 3⟩

def bootEntry : Entry := ⟨4, "boot", none⟩

/-- C3 (amended): a returned frame is classified not-internal, and it is
the first frame of the captured stack that is neither a runtime frame, nor
internal, nor a testing-framework frame; every earlier frame is one of
those three. -/
theorem resolver_returns_first_unskipped (pkgs : List String) (stack : List Frame)
    (f : Frame) (h : firstExternalCaller pkgs stack = some f) :
    isInternalFrame pkgs f = false ∧ isRuntimeFrame f = false ∧
    containsSubstr f.file "/testing/" = false ∧
    ∃ pre post, stack.take 64 = pre ++ f :: post ∧ ∀ g ∈ pre, skippable pkgs g := by
  unfold firstExternalCaller at h
  by_cases he : (stack.take 64).isEmpty
  · simp [he] at h
  · simp only [he, if_false, Bool.false_eq_true] at h
    obtain ⟨h1, h2, h3, pre, post, heq, hpre⟩ := scanFrames_eq_some h
    exact ⟨h2, h1, h3, pre, post, heq, hpre⟩

/-- C3 witness: a concrete stack whose first two frames are internal. -/
theorem resolver_returns_first_unskipped_witness :
    isInternalFrame initPkgs appFrame = false ∧
    isRuntimeFrame appFrame = false ∧
    containsSubstr appFrame.file "/testing/" = false ∧
    ∃ pre post,
      ([wrapperFrame, wrapperFrame, appFrame].take 64) = pre ++ appFrame :: post ∧
      ∀ g ∈ pre, skippable initPkgs g :=
  resolver_returns_first_unskipped initPkgs [wrapperFrame, wrapperFrame, appFrame]
    appFrame (by decide)

/-- C3 counterexample: against the initial registry, the stack
`[testingFrame, appFrame]` makes the resolver answer `appFrame`, although
the earlier frame `testingFrame` is also classified not-internal — the
answer is not the first frame classified not-internal. -/
theorem resolver_not_first_counterexample :
    firstExternalCaller initPkgs [testingFrame, appFrame] = some appFrame ∧
    isInternalFrame initPkgs testingFrame = false ∧
    testingFrame ≠ appFrame := by
  decide

/-- C5: when every captured frame (the bound is 64 entries) is walked past
— runtime, internal or testing — the resolver reports no caller, `Write`
leaves `Entry.Caller` untouched and still forwards the record, and the
whole decision depends only on the first 64 stack entries. -/
theorem resolver_bounded_miss (pkgs : List String) (stack : List Frame) (ent : Entry)
    (h : ∀ g ∈ stack.take 64, skippable pkgs g) :
    firstExternalCaller pkgs stack = none ∧
    callerCoreWrite pkgs stack ent = (ent, true) ∧
    firstExternalCaller pkgs stack = firstExternalCaller pkgs (stack.take 64) := by
  have hn : firstExternalCaller pkgs stack = none := by
    unfold firstExternalCaller
    by_cases he : (stack.take 64).isEmpty
    · simp [he]
    · simp only [he, if_false, Bool.false_eq_true]
      exact scanFrames_eq_none h
  refine ⟨hn, ?_, ?_⟩
  · unfold callerCoreWrite
    rw [hn]
  · rw [hn, firstExternalCaller_take, hn]

/-- C5 witness: a stack of 70 identical internal wrapper frames — deeper
than the 64-entry bound — yields no caller and an unchanged entry. -/
theorem resolver_bounded_miss_witness :
    firstExternalCaller initPkgs (List.replicate 70 wrapperFrame) = none ∧
    callerCoreWrite initPkgs (List.replicate 70 wrapperFrame) bootEntry
      = (bootEntry, true) ∧
    firstExternalCaller initPkgs (List.replicate 70 wrapperFrame)
      = firstExternalCaller initPkgs ((List.replicate 70 wrapperFrame).take 64) :=
  resolver_bounded_miss initPkgs (List.replicate 70 wrapperFrame) bootEntry
    (by
      intro g hg
      have hg₂ : g ∈ List.replicate 70 wrapperFrame := List.mem_of_mem_take hg
      have hg₃ := List.eq_of_mem_replicate hg₂
      subst hg₃
      exact Or.inr (Or.inl (by decide)))

/-- C6 (amended): a frame whose file path contains `/testing/` is never
the resolver's answer — the skip is unconditional, not tied to any
test-aware traversal mode. -/
theorem resolver_never_returns_testing (pkgs : List String) (stack : List Frame)
    (f : Frame) (h : firstExternalCaller pkgs stack = some f) :
    containsSubstr f.file "/testing/" = false := by
  unfold firstExternalCaller at h
  by_cases he : (stack.take 64).isEmpty
  · simp [he] at h
  · simp only [he, if_false, Bool.false_eq_true] at h
    exact (scanFrames_eq_some h).2.2.1

/-- C6 witness: the resolver answer for a concrete test-process stack is
the test file's frame, which indeed does not contain `/testing/`. -/
theorem resolver_never_returns_testing_witness :
    containsSubstr appFrame.file "/testing/" = false :=
  resolver_never_returns_testing initPkgs [testingFrame, appFrame] appFrame (by decide)

/-- C6 counterexample: a testing-framework frame that is neither internal
nor a runtime frame, alone on the stack in ordinary operation, is still
skipped — the resolver returns nothing rather than this frame. -/
theorem testing_frame_never_answer_counterexample :
    isInternalFrame initPkgs testingFrame = false ∧
    isRuntimeFrame testingFrame = false ∧
    firstExternalCaller initPkgs [testingFrame] = none := by
  decide

/-! ### Helper lemmas about the vmodule table -/

theorem foldl_filterMap_vmod (l : List String) (m : List (String × Int)) :
    l.foldl
      (fun m entry =>
        match parseVmodEntry entry with
        | some (p, lvl) => insertVmod m p lvl
        | none => m) m
    = (l.filterMap parseVmodEntry).foldl (fun m e => insertVmod m e.1 e.2) m := by
  induction l generalizing m with
  | nil => rfl
  | cons a t ih =>
    cases hp : parseVmodEntry a with
    | none => simp [List.foldl_cons, List.filterMap_cons, hp, ih]
    | some e =>
      cases e with
      | mk p lvl => simp [List.foldl_cons, List.filterMap_cons, hp, ih]

theorem lookup_foldl_pres (l : List (String × Int)) (m : List (String × Int))
    (p : String) (h : lookupVmod m p ≠ none) :
    lookupVmod (l.foldl (fun m e => insertVmod m e.1 e.2) m) p ≠ none := by
  induction l generalizing m with
  | nil => exact h
  | cons e t ih =>
    rw [List.foldl_cons]
    apply ih
    by_cases he : e.1 = p
    · simp [insertVmod, lookupVmod, he]
    · simpa [insertVmod, lookupVmod, he] using h

theorem lookup_foldl_mem (l : List (String × Int)) (m : List (String × Int))
    (p : String) (lvl : Int) (h : (p, lvl) ∈ l) :
    lookupVmod (l.foldl (fun m e => insertVmod m e.1 e.2) m) p ≠ none := by
  induction l generalizing m with
  | nil => cases h
  | cons e t ih =>
    rw [List.foldl_cons]
    rcases List.mem_cons.1 h with he | ht
    · apply lookup_foldl_pres
      rw [← he]
      simp [insertVmod, lookupVmod]
    · exact ih _ ht

/-! ### Claim theorems about the verbosity filter -/

/-- C4: the cheap phase-1 pre-check admits exactly the levels at or above
the severity cutoff together with every verbose level, and its outcome is
unchanged by the override table and the default verbosity — it sees only
`minSeverity` and the level. -/
theorem glog_enabled_decision (g : GlogHandler) (L : Int) :
    (GlogHandler.Enabled g L = true ↔ (g.minSeverity ≤ L ∨ L < LevelInfo)) ∧
    (∀ vd vm, GlogHandler.Enabled ⟨g.minSeverity, vd, vm⟩ L = GlogHandler.Enabled g L) := by
  constructor
  · simp [GlogHandler.Enabled]
  · intro vd vm
    rfl

/-- C1: the precise phase-2 decision — a record at or above `minSeverity`
is always forwarded; a verbose record below `minSeverity` whose caller file
resolves to `f` is forwarded iff its level is at most the override
registered for `f`'s basename when one exists, and at most the default
verbosity otherwise. -/
theorem glog_handle_decision (pcFile : Nat → String) (g : GlogHandler) (r : SRecord)
    (f : String) (hpc : r.pc ≠ 0) (hf : pcFile r.pc = f) (hne : f ≠ "") :
    (g.minSeverity ≤ r.level → GlogHandler.Handle pcFile g r = true) ∧
    (r.level < g.minSeverity → r.level < LevelInfo →
      ((∀ v, lookupVmod g.vmodules (baseName f) = some v →
          (GlogHandler.Handle pcFile g r = true ↔ r.level ≤ v)) ∧
        (lookupVmod g.vmodules (baseName f) = none →
          (GlogHandler.Handle pcFile g r = true ↔ r.level ≤ g.vdefault)))) := by
  constructor
  · intro h
    unfold GlogHandler.Handle
    rw [if_pos h]
  · intro h1 h2
    have ha : ¬ g.minSeverity ≤ r.level := not_le.2 h1
    constructor
    · intro v hv
      unfold GlogHandler.Handle
      rw [if_neg ha, if_pos h2]
      simp only [if_pos hpc, hf, if_pos hne, hv, decide_eq_true_eq]
    · intro hv
      unfold GlogHandler.Handle
      rw [if_neg ha, if_pos h2]
      simp only [if_pos hpc, hf, if_pos hne, hv, decide_eq_true_eq]

/-- C1 witness: with severity cutoff 0 and override `x.go → -3`, a level
`-2` record attributed to `/home/u/app/x.go` is dropped — the override, not
the default verbosity `0`, decides. -/
theorem glog_handle_decision_witness :
    GlogHandler.Handle (fun _ => "/home/u/app/x.go") ⟨0, 0, [("x.go", -3)]⟩ ⟨-2, 5⟩
      = false := by
  have h :=
    ((glog_handle_decision (fun _ => "/home/u/app/x.go") ⟨0, 0, [("x.go", -3)]⟩ ⟨-2, 5⟩
        "/home/u/app/x.go" (by decide) rfl (by decide)).2
      (by decide) (by decide)).1 (-3) (by decide)
  cases hb : GlogHandler.Handle (fun _ => "/home/u/app/x.go") ⟨0, 0, [("x.go", -3)]⟩ ⟨-2, 5⟩ with
  | false => rfl
  | true => exact absurd (h.1 hb) (by decide)

/-- C9: a level in the gap band `LevelInfo ≤ L < minSeverity` is rejected
by both phases, and the phase-2 rejection holds for every override table
and default verbosity — overrides can only ever admit levels strictly
below `LevelInfo`. -/
theorem glog_gap_band_rejected (pcFile : Nat → String) (g : GlogHandler) (r : SRecord)
    (h1 : LevelInfo ≤ r.level) (h2 : r.level < g.minSeverity) :
    GlogHandler.Enabled g r.level = false ∧
    GlogHandler.Handle pcFile g r = false ∧
    (∀ vm vd, GlogHandler.Handle pcFile ⟨g.minSeverity, vd, vm⟩ r = false) := by
  have ha : ¬ g.minSeverity ≤ r.level := not_le.2 h2
  have hb : ¬ r.level < LevelInfo := not_lt.2 h1
  refine ⟨?_, ?_, ?_⟩
  · simp [GlogHandler.Enabled, ha, hb]
  · unfold GlogHandler.Handle
    rw [if_neg ha, if_neg hb]
  · intro vm vd
    unfold GlogHandler.Handle
    rw [if_neg ha, if_neg hb]

/-- C9 witness: with cutoff `4` (warn), a level-`0` (info) record is
rejected by both phases, even with an override `x.go → 9` in place. -/
theorem glog_gap_band_rejected_witness :
    GlogHandler.Enabled ⟨4, 4, []⟩ 0 = false ∧
    GlogHandler.Handle (fun _ => "/home/u/app/x.go") ⟨4, 4, []⟩ ⟨0, 5⟩ = false ∧
    GlogHandler.Handle (fun _ => "/home/u/app/x.go") ⟨4, 7, [("x.go", 9)]⟩ ⟨0, 5⟩
      = false := by
  obtain ⟨a, b, c⟩ :=
    glog_gap_band_rejected (fun _ => "/home/u/app/x.go") ⟨4, 4, []⟩ ⟨0, 5⟩
      (by decide) (by decide)
  exact ⟨a, b, c [("x.go", 9)] 7⟩

/-- C7: `Vmodule` surfaces no error on any spec string, its table update is
exactly the fold of the well-formed `pattern=level` entries (malformed
entries — no `=` or a non-integer level — are skipped without any other
effect), and after the call every well-formed entry's pattern is present in
the override table. -/
theorem vmodule_lenient_parse (g : GlogHandler) (spec : String) :
    (GlogHandler.Vmodule g spec).2 = none ∧
    (GlogHandler.Vmodule g spec).1.vmodules
      = (parsedEntries spec).foldl (fun m e => insertVmod m e.1 e.2) g.vmodules ∧
    (∀ p lvl, (p, lvl) ∈ parsedEntries spec →
      lookupVmod (GlogHandler.Vmodule g spec).1.vmodules p ≠ none) := by
  refine ⟨rfl, ?_, ?_⟩
  · unfold GlogHandler.Vmodule parsedEntries
    exact foldl_filterMap_vmod _ _
  · intro p lvl h
    have he : (GlogHandler.Vmodule g spec).1.vmodules
        = (parsedEntries spec).foldl (fun m e => insertVmod m e.1 e.2) g.vmodules := by
      unfold GlogHandler.Vmodule parsedEntries
      exact foldl_filterMap_vmod _ _
    rw [he]
    exact lookup_foldl_mem _ _ p lvl h

/-- C7 witness: the spec `"x.go=3,bad,y=zz"` — one well-formed entry and
two malformed ones — parses without error and installs `x.go`. -/
theorem vmodule_lenient_parse_witness :
    (GlogHandler.Vmodule NewGlogHandler "x.go=3,bad,y=zz").2 = none ∧
    lookupVmod (GlogHandler.Vmodule NewGlogHandler "x.go=3,bad,y=zz").1.vmodules "x.go"
      ≠ none := by
  obtain ⟨a, b, c⟩ := vmodule_lenient_parse NewGlogHandler "x.go=3,bad,y=zz"
  exact ⟨a, c "x.go" 3 (by decide)⟩

end LuxLog
